import Mathlib

/-!
Shallow embedding of the card-game core of this repository:
the card/deck model (`internal/api/models/desk.go`), the game state model
(`internal/api/models/game.go`) and the pure state-transition content of the
game operations engine (`internal/api/services/game_service.go`).

Modelling conventions:
- Go slices become Lean `List`s.
- The Go map `map[string][]Card` (`Game.PlayerHands`) becomes an association
  list `List (String × List Card)`; a `nil` Go map is the empty list.  Reading
  a missing key yields the zero value (here: no entry, `Option.none` from
  `List.lookup`), exactly as in Go's two-result map read.
- The Go map `map[string]map[string]int` used by `GetRemainingCardsSorted`
  becomes a function `String → Option (String → Nat)`: `none` models a key
  that is absent (whose value is the `nil` map); writing through `none`
  models the Go run-time panic on assignment to a `nil` map, so the counting
  step returns `Option.none` overall.
- `rand.Intn(n)` draws are modelled as an input `js : Nat → Nat`, the value
  `js i` being the draw made at loop index `i` (`rand.Intn` always returns a
  value `< n`; the embedding is total and leaves the list unchanged on an
  out-of-range index, which never occurs under that bound).
- MongoDB persistence, ObjectIDs and HTTP transport are external
  collaborators out of scope; each service operation is embedded as the pure
  state transition it performs between loading and saving the game document,
  and ObjectIDs are modelled as `Nat`.
- Go `error` results become `Except String` carrying the exact message
  strings of the source.
-/

namespace CardGame

/-- `models.Card` (game.go): a playing card, a pair of suit and value strings. -/
structure Card where
  Suit : String
  Value : String
deriving DecidableEq

/-- `models.Deck` (desk.go): a deck is a slice of cards. -/
structure Deck where
  Cards : List Card
deriving DecidableEq

/-- The suit enumeration of `NewDeck` (desk.go line 9). -/
def deckSuits : List String := ["Hearts", "Diamonds", "Clubs", "Spades"]

/-- The value enumeration of `NewDeck` (desk.go line 10). -/
def deckValues : List String :=
  ["Ace", "2", "3", "4", "5", "6", "7", "8", "9", "10", "Jack", "Queen", "King"]

/-- `models.NewDeck` (desk.go): the nested loops over suits and values,
appending one card per (suit, value) pair in enumeration order. -/
def NewDeck : Deck :=
  ⟨deckSuits.flatMap (fun suit => deckValues.map (fun value => ⟨suit, value⟩))⟩

/-- `models.Game` (game.go): the game aggregate.  The ObjectID is modelled as
a `Nat`; `PlayerHands` models the Go map as an association list. -/
structure Game where
  ID : Nat
  Name : String
  Players : List String
  GameDeck : List Card
  PlayerHands : List (String × List Card)
deriving DecidableEq

/-- `Game.AddDeckToGame` (game.go): appends the deck's cards to the game deck. -/
def Game.AddDeckToGame (g : Game) (deck : Deck) : Game :=
  { g with GameDeck := g.GameDeck ++ deck.Cards }

/-- One iteration of the shuffle loop body (game.go line 33):
`g.GameDeck[i], g.GameDeck[j] = g.GameDeck[j], g.GameDeck[i]`.
Out-of-range indices leave the list unchanged; `rand.Intn` never produces
them. -/
def listSwap (l : List Card) (i j : Nat) : List Card :=
  match l[i]?, l[j]? with
  | some a, some b => (l.set i b).set j a
  | _, _ => l

/-- `Game.ShuffleDeck` (game.go lines 28-35): for each index `i` of the game
deck in order, swap position `i` with position `js i` (the `rand.Intn(n)`
draw of that iteration). -/
def Game.ShuffleDeck (g : Game) (js : Nat → Nat) : Game :=
  { g with GameDeck :=
      (List.range g.GameDeck.length).foldl (fun d i => listSwap d i (js i)) g.GameDeck }

/-- `GameService.CreateGame` (game_service.go lines 55-77), persistence
aside: a fresh game with the given id and name, empty players, empty deck,
and the `PlayerHands` map left `nil` (empty association list). -/
def CreateGame (id : Nat) (name : String) : Game :=
  { ID := id, Name := name, Players := [], GameDeck := [], PlayerHands := [] }

/-- `GameService.ShuffleGameDeck` (game_service.go lines 225-252),
load/persist aside: delegates to `Game.ShuffleDeck`. -/
def ShuffleGameDeck (g : Game) (js : Nat → Nat) : Game :=
  g.ShuffleDeck js

/-- `GameService.AddPlayer` (game_service.go lines 150-181), load/persist
aside: error if the player already appears, else append. -/
def AddPlayer (g : Game) (playerName : String) : Except String Game :=
  if playerName ∈ g.Players then .error "player already in the game"
  else .ok { g with Players := g.Players ++ [playerName] }

/-- `GameService.RemovePlayer` (game_service.go lines 184-222), load/persist
aside: keep every entry different from `playerName`; if nothing was dropped
the player was absent and an error is returned. -/
def RemovePlayer (g : Game) (playerName : String) : Except String Game :=
  let newPlayers := g.Players.filter (fun player => player ≠ playerName)
  if newPlayers.length = g.Players.length then
    .error "player not found in the game"
  else
    .ok { g with Players := newPlayers }

/-- The Go map assignment `game.PlayerHands[playerName] =
append(game.PlayerHands[playerName], dealtCard)` (game_service.go line 293)
on the association-list model: update the existing entry in place, or create
a new entry when the key is absent (also covering the `nil`-map
initialisation of lines 289-291). -/
def updatePlayerHands (hands : List (String × List Card)) (playerName : String)
    (card : Card) : List (String × List Card) :=
  if (hands.lookup playerName).isSome then
    hands.map (fun entry =>
      if entry.1 = playerName then (entry.1, entry.2 ++ [card]) else entry)
  else
    hands ++ [(playerName, [card])]

/-- `GameService.DealCardToPlayer` (game_service.go lines 257-306),
load/persist aside: error on an empty deck, else remove the card at index 0,
append it to the player's hand, and return it with the updated game. -/
def DealCardToPlayer (g : Game) (playerName : String) :
    Except String (Card × Game) :=
  match g.GameDeck with
  | [] => .error "no cards left to deal"
  | dealtCard :: rest =>
      .ok (dealtCard,
        { g with GameDeck := rest,
                 PlayerHands := updatePlayerHands g.PlayerHands playerName dealtCard })

/-- `GameService.GetPlayerHand` (game_service.go lines 311-340), load aside:
the two-result map read `hand, exists := game.PlayerHands[playerName]`;
error when the key is absent. -/
def GetPlayerHand (g : Game) (playerName : String) : Except String (List Card) :=
  match g.PlayerHands.lookup playerName with
  | some hand => .ok hand
  | none => .error "player not found or no cards dealt to this player"

/-- `GameService.getCardValue` (game_service.go lines 389-420): the fixed
rank table; any unrecognised value contributes 0. -/
def getCardValue (card : Card) : Nat :=
  match card.Value with
  | "Ace" => 1
  | "2" => 2
  | "3" => 3
  | "4" => 4
  | "5" => 5
  | "6" => 6
  | "7" => 7
  | "8" => 8
  | "9" => 9
  | "10" => 10
  | "Jack" => 11
  | "Queen" => 12
  | "King" => 13
  | _ => 0

/-- `services.PlayerHandValue` (game_service.go lines 18-21). -/
structure PlayerHandValue where
  PlayerName : String
  HandValue : Nat
deriving DecidableEq

/-- `GameService.GetPlayersWithHandValues` (game_service.go lines 344-386),
load aside: one entry per key of the hands map, valued by the rank-table sum
over the hand, then sorted by hand value in descending order.  Go's
`sort.Slice` with the comparator `hv i > hv j` is an unstable comparison
sort; it is embedded as `mergeSort` on the non-strict flipped comparator
(ties are unordered in the source). -/
def GetPlayersWithHandValues (g : Game) : List PlayerHandValue :=
  (g.PlayerHands.map (fun entry =>
      { PlayerName := entry.1, HandValue := (entry.2.map getCardValue).sum })).mergeSort
    (fun a b => b.HandValue ≤ a.HandValue)

/-- `services.CardCount` (game_service.go lines 38-42). -/
structure CardCount where
  Suit : String
  Value : String
  Count : Nat
deriving DecidableEq

/-- The initial `cardCounts` map literal of `GetRemainingCardsSorted`
(game_service.go lines 494-499): the four standard suits mapped to empty
inner maps; every other key absent (its value is the `nil` map, `none`). -/
def initCardCounts : String → Option (String → Nat) := fun suit =>
  if suit = "Hearts" ∨ suit = "Diamonds" ∨ suit = "Clubs" ∨ suit = "Spades" then
    some (fun _ => 0)
  else
    none

/-- The counting loop of `GetRemainingCardsSorted` (game_service.go lines
502-504): `cardCounts[card.Suit][card.Value]++` for each card of the deck in
order.  When `counts card.Suit` is `none` the Go code assigns through a
`nil` map and panics; the embedding returns `none`. -/
def countCardsAux : List Card → (String → Option (String → Nat)) →
    Option (String → Option (String → Nat))
  | [], counts => some counts
  | card :: rest, counts =>
      match counts card.Suit with
      | none => none
      | some inner =>
          countCardsAux rest (fun suit =>
            if suit = card.Suit then
              some (fun value => if value = card.Value then inner value + 1 else inner value)
            else counts suit)

/-- `suitsOrder` (game_service.go line 509). -/
def suitsOrder : List String := ["Hearts", "Spades", "Clubs", "Diamonds"]

/-- `valuesOrder` (game_service.go line 510). -/
def valuesOrder : List String :=
  ["King", "Queen", "Jack", "10", "9", "8", "7", "6", "5", "4", "3", "2", "Ace"]

/-- `GameService.GetRemainingCardsSorted` (game_service.go lines 473-530),
load aside: count the deck per (suit, value) — `none` models the panic on a
non-standard suit — then walk `suitsOrder` × `valuesOrder` in order,
emitting each pair with a positive count. -/
def GetRemainingCardsSorted (g : Game) : Option (List CardCount) :=
  (countCardsAux g.GameDeck initCardCounts).map (fun cardCounts =>
    suitsOrder.flatMap (fun suit =>
      valuesOrder.filterMap (fun value =>
        let count := match cardCounts suit with
          | some inner => inner value
          | none => 0
        if count > 0 then some { Suit := suit, Value := value, Count := count }
        else none)))

/-- The ordering key asserted by the spec for `GetRemainingCardsSorted`
output: position of the suit in the fixed sequence Hearts, Spades, Clubs,
Diamonds (major) and of the value in the descending rank order King … Ace
(minor).  Stated from the spec's ordering words, to compare the source's
output order against. -/
def cardKey (cc : CardCount) : Nat :=
  13 * suitsOrder.indexOf cc.Suit + valuesOrder.indexOf cc.Value

/-! ### Concrete sample states used by witnesses -/

/-- A game whose draw pile holds a card with a non-standard suit. -/
def jokerGame : Game :=
  { ID := 4, Name := "w", Players := [], GameDeck := [⟨"Joker", "Ace"⟩],
    PlayerHands := [] }

/-- A game whose draw pile is the spec's worked example for the sorted
remaining-card statistics: Hearts-King, Hearts-Ace, Clubs-2. -/
def remainingSampleGame : Game :=
  { ID := 5, Name := "w", Players := [],
    GameDeck := [⟨"Hearts", "King"⟩, ⟨"Hearts", "Ace"⟩, ⟨"Clubs", "2"⟩],
    PlayerHands := [] }

/-- A two-card deck used by witnesses. -/
def sampleDeck : Deck := ⟨[⟨"Hearts", "Ace"⟩, ⟨"Spades", "2"⟩]⟩

/-- A freshly created game with the two-card sample deck appended. -/
def dealSampleGame : Game := (CreateGame 7 "w").AddDeckToGame sampleDeck

/-- A game with two players and nothing else. -/
def twoPlayerGame : Game :=
  { ID := 1, Name := "w", Players := ["alice", "bob"], GameDeck := [], PlayerHands := [] }

/-- A game with one player and nothing else. -/
def onePlayerGame : Game :=
  { ID := 2, Name := "w", Players := ["alice"], GameDeck := [], PlayerHands := [] }

/-- A game whose hands map is the spec's worked example:
Alice holds a King and an Ace, Bob holds a Queen. -/
def handsSampleGame : Game :=
  { ID := 9, Name := "w", Players := [], GameDeck := [],
    PlayerHands := [("Alice", [⟨"Spades", "King"⟩, ⟨"Hearts", "Ace"⟩]),
                    ("Bob", [⟨"Clubs", "Queen"⟩])] }

/-! ### Concrete material for the shuffle-bias analysis (claim C1)

A three-card draw pile, and the 27 equally likely sequences of `rand.Intn(3)`
draws consumed by the shuffle loop on it. -/

/-- A three-card draw pile. -/
def threeCards : List Card := [⟨"Hearts", "Ace"⟩, ⟨"Hearts", "2"⟩, ⟨"Hearts", "3"⟩]

/-- A game holding exactly the three-card draw pile. -/
def threeCardGame : Game :=
  { ID := 0, Name := "g", Players := [], GameDeck := threeCards, PlayerHands := [] }

/-- All 27 triples of `rand.Intn(3)` outcomes, each equally likely. -/
def allIndexTriples : List (Nat × Nat × Nat) :=
  (List.range 3).flatMap (fun a =>
    (List.range 3).flatMap (fun b =>
      (List.range 3).map (fun c => (a, b, c))))

/-- The draw pile produced by `ShuffleGameDeck` on the three-card game for
each of the 27 equally likely random-index triples. -/
def naiveShuffleOutcomes : List (List Card) :=
  allIndexTriples.map (fun t =>
    (ShuffleGameDeck threeCardGame
      (fun i => if i = 0 then t.1 else if i = 1 then t.2.1 else t.2.2)).GameDeck)

/-! ### Permutation lemmas for the shuffle -/

/-- Replacing position `j` (which holds `b`) by `a` and putting `b` in front
is a permutation of putting `a` in front. -/
theorem cons_set_perm (a : Card) : ∀ (l : List Card) (j : Nat) (b : Card),
    l[j]? = some b → (b :: l.set j a).Perm (a :: l) := by
  intro l
  induction l with
  | nil => intro j b h; simp at h
  | cons c t ih =>
    intro j b h
    cases j with
    | zero =>
      simp only [List.getElem?_cons_zero, Option.some.injEq] at h
      subst h
      simpa using List.Perm.swap a c t
    | succ j =>
      simp only [List.getElem?_cons_succ] at h
      have h1 := ih j b h
      have h2 : (b :: (c :: t).set (j + 1) a) = b :: c :: t.set j a := by simp
      rw [h2]
      exact ((List.Perm.swap c b _).trans ((h1).cons c)).trans (List.Perm.swap a c t)

/-- One swap of the shuffle loop body permutes the list. -/
theorem listSwap_perm : ∀ (l : List Card) (i j : Nat), (listSwap l i j).Perm l := by
  intro l
  induction l with
  | nil => intro i j; simp [listSwap]
  | cons c t ih =>
    intro i j
    cases i with
    | zero =>
      cases j with
      | zero => simp [listSwap]
      | succ j =>
        cases hj : t[j]? with
        | none => simp [listSwap, hj]
        | some b =>
          simpa [listSwap, hj] using cons_set_perm c t j b hj
    | succ i =>
      cases j with
      | zero =>
        cases hi : t[i]? with
        | none => simp [listSwap, hi]
        | some a =>
          simpa [listSwap, hi] using cons_set_perm c t i a hi
      | succ j =>
        cases hi : t[i]? with
        | none => simp [listSwap, hi]
        | some a =>
          cases hj : t[j]? with
          | none => simp [listSwap, hi, hj]
          | some b =>
            have h3 := ih i j
            simp only [listSwap, hi, hj] at h3
            simpa [listSwap, hi, hj] using (h3).cons c

/-- The whole shuffle loop, folded over any index list, permutes the list. -/
theorem foldl_listSwap_perm (js : Nat → Nat) :
    ∀ (ix : List Nat) (d : List Card),
      (ix.foldl (fun d i => listSwap d i (js i)) d).Perm d := by
  intro ix
  induction ix with
  | nil => intro d; simp
  | cons i rest ih =>
    intro d
    exact (ih (listSwap d i (js i))).trans (listSwap_perm d i (js i))

/-- C2: For every draw pile and every sequence of random indices consumed by
the shuffle, the draw pile after `ShuffleDeck` is a permutation of the draw
pile before: the multiset of cards is preserved, with no card added, removed,
or duplicated. -/
theorem shuffleDeck_perm (g : Game) (js : Nat → Nat) :
    ((g.ShuffleDeck js).GameDeck).Perm g.GameDeck := by
  simpa [Game.ShuffleDeck] using
    foldl_listSwap_perm js (List.range g.GameDeck.length) g.GameDeck

/-- C1 (counterexample evaluation): on a three-card draw pile the shuffle of
`ShuffleGameDeck` is not uniform.  Over the 27 equally likely triples of
`rand.Intn(3)` draws, the identity arrangement is produced 4 times
(probability 4/27) while the arrangement with the last two cards exchanged
is produced 5 times (probability 5/27); a uniform shuffle would give every
permutation probability 1/6 = 4.5/27.  The loop swaps every position `i`
with `rand.Intn(n)` — the naive biased algorithm, not Fisher–Yates. -/
theorem shuffleGameDeck_not_uniform :
    naiveShuffleOutcomes.length = 27 ∧
    naiveShuffleOutcomes.count [⟨"Hearts", "Ace"⟩, ⟨"Hearts", "2"⟩, ⟨"Hearts", "3"⟩] = 4 ∧
    naiveShuffleOutcomes.count [⟨"Hearts", "Ace"⟩, ⟨"Hearts", "3"⟩, ⟨"Hearts", "2"⟩] = 5 := by
  decide

/-! ### Lookup lemmas for the hands map -/

/-- Updating the entry of an existing key appends the card to that key's hand. -/
theorem lookup_map_append (playerName : String) (card : Card) :
    ∀ (hands : List (String × List Card)) (l : List Card),
      hands.lookup playerName = some l →
      ((hands.map (fun entry =>
          if entry.1 = playerName then (entry.1, entry.2 ++ [card]) else entry)).lookup
        playerName) = some (l ++ [card]) := by
  intro hands
  induction hands with
  | nil => intro l h; simp at h
  | cons e t ih =>
    obtain ⟨k, v⟩ := e
    intro l h
    by_cases hk : k = playerName
    · subst hk
      rw [List.lookup_cons_self] at h
      obtain rfl := Option.some.inj h
      simp only [List.map_cons, if_pos rfl]
      exact List.lookup_cons_self
    · have hb : (playerName == k) = false := by
        simp only [beq_eq_false_iff_ne, ne_eq]
        exact fun hc => hk hc.symm
      rw [List.lookup_cons, hb] at h
      simp only [List.map_cons, if_neg hk]
      rw [List.lookup_cons, hb]
      exact ih l h

/-- Appending a fresh entry at the end makes it the lookup result for a key
that was absent. -/
theorem lookup_append_new (playerName : String) (card : Card)
    (hands : List (String × List Card)) (h : hands.lookup playerName = none) :
    ((hands ++ [(playerName, [card])]).lookup playerName) = some [card] := by
  rw [List.lookup_append, h]
  simp

/-- The Go map append-assignment gives the named player exactly their old
hand (empty when absent) with the card appended. -/
theorem lookup_updatePlayerHands (hands : List (String × List Card))
    (playerName : String) (card : Card) :
    (updatePlayerHands hands playerName card).lookup playerName =
      some (((hands.lookup playerName).getD []) ++ [card]) := by
  unfold updatePlayerHands
  cases h : hands.lookup playerName with
  | none => simpa [h] using lookup_append_new playerName card hands h
  | some l => simpa [h] using lookup_map_append playerName card hands l h

/-- C3: For every game whose draw pile is non-empty and every player name,
`DealCardToPlayer` removes the card at index 0 of the draw pile, appends
exactly that card to the end of the named player's hand (creating the hand
entry if the player has never been dealt to), and returns that card; the
draw-pile length decreases by exactly 1 and the player's hand length
increases by exactly 1. -/
theorem dealCardToPlayer_spec (g : Game) (playerName : String) (c : Card)
    (rest : List Card) (h : g.GameDeck = c :: rest) :
    ∃ g', DealCardToPlayer g playerName = .ok (c, g') ∧
      g'.GameDeck = rest ∧
      g'.GameDeck.length + 1 = g.GameDeck.length ∧
      g'.PlayerHands.lookup playerName =
        some (((g.PlayerHands.lookup playerName).getD []) ++ [c]) ∧
      ((g'.PlayerHands.lookup playerName).getD []).length =
        ((g.PlayerHands.lookup playerName).getD []).length + 1 := by
  refine ⟨{ g with GameDeck := rest, PlayerHands := updatePlayerHands g.PlayerHands playerName c }, ?_, rfl, ?_, ?_, ?_⟩
  · simp [DealCardToPlayer, h]
  · simp [h]
  · exact lookup_updatePlayerHands g.PlayerHands playerName c
  · simp [lookup_updatePlayerHands g.PlayerHands playerName c]

/-- Witness for C3: dealing from a concrete two-card game to a player with
no existing hand entry. -/
theorem dealCardToPlayer_spec_witness :
    dealSampleGame.GameDeck = ⟨"Hearts", "Ace"⟩ :: [⟨"Spades", "2"⟩] ∧
    ∃ g', DealCardToPlayer dealSampleGame "alice" = .ok (⟨"Hearts", "Ace"⟩, g') ∧
      g'.GameDeck = [⟨"Spades", "2"⟩] ∧
      g'.GameDeck.length + 1 = dealSampleGame.GameDeck.length ∧
      g'.PlayerHands.lookup "alice" =
        some (((dealSampleGame.PlayerHands.lookup "alice").getD []) ++ [⟨"Hearts", "Ace"⟩]) ∧
      ((g'.PlayerHands.lookup "alice").getD []).length =
        ((dealSampleGame.PlayerHands.lookup "alice").getD []).length + 1 :=
  ⟨rfl, dealCardToPlayer_spec dealSampleGame "alice" ⟨"Hearts", "Ace"⟩ [⟨"Spades", "2"⟩] rfl⟩

/-- C4: For every game whose draw pile is empty and every player name,
`DealCardToPlayer` fails with the empty-deck error; no updated state is
produced, so the game (players, draw pile, all hands) is unchanged. -/
theorem dealCardToPlayer_empty (g : Game) (playerName : String)
    (h : g.GameDeck = []) :
    DealCardToPlayer g playerName = .error "no cards left to deal" := by
  simp [DealCardToPlayer, h]

/-- Witness for C4: dealing from a freshly created (empty-deck) game fails. -/
theorem dealCardToPlayer_empty_witness :
    (CreateGame 3 "w").GameDeck = [] ∧
    DealCardToPlayer (CreateGame 3 "w") "bob" = .error "no cards left to deal" :=
  ⟨rfl, dealCardToPlayer_empty (CreateGame 3 "w") "bob" rfl⟩

/-! ### Player-removal lemmas -/

/-- A name occurring at most once: filtering it out equals erasing its first
occurrence. -/
theorem filter_ne_eq_erase (playerName : String) :
    ∀ (l : List String), l.count playerName ≤ 1 →
      l.filter (fun player => player ≠ playerName) = l.erase playerName := by
  intro l
  induction l with
  | nil => intro _; simp
  | cons a t ih =>
    intro h
    by_cases ha : a = playerName
    · subst ha
      have h0 : t.count a = 0 := by
        simp [List.count_cons] at h
        omega
      have hnot : a ∉ t := List.count_eq_zero.mp h0
      rw [List.erase_cons_head, List.filter_cons, if_neg (by simp), List.filter_eq_self]
      intro b hb
      simp only [ne_eq, decide_eq_true_eq]
      exact fun hc => hnot (hc ▸ hb)
    · have hc : t.count playerName ≤ 1 := le_trans (List.count_le_count_cons playerName a t) h
      rw [List.filter_cons, List.erase_cons_tail (by simp [ha]), if_pos (by simp [ha]), ih hc]

/-- C5: For every game and player name, `RemovePlayer` fails with the
player-not-found error when the name is absent from the player list, and
otherwise (the player list holding the name at most once, as the add-player
operation enforces) removes exactly the first (only) entry equal to the
name, preserving the relative order of all remaining players; the draw pile
and hands are untouched. -/
theorem removePlayer_spec (g : Game) (playerName : String)
    (h : g.Players.count playerName ≤ 1) :
    (playerName ∉ g.Players →
      RemovePlayer g playerName = .error "player not found in the game") ∧
    (playerName ∈ g.Players →
      ∃ g', RemovePlayer g playerName = .ok g' ∧
        g'.Players = g.Players.erase playerName ∧
        g'.GameDeck = g.GameDeck ∧ g'.PlayerHands = g.PlayerHands) := by
  constructor
  · intro habs
    have hself : g.Players.filter (fun player => player ≠ playerName) = g.Players := by
      rw [List.filter_eq_self]
      intro b hb
      simp only [ne_eq, decide_eq_true_eq]
      exact fun hc => habs (hc ▸ hb)
    simp only [RemovePlayer]
    rw [hself, if_pos rfl]
  · intro hmem
    have heq := filter_ne_eq_erase playerName g.Players h
    have hpos : 0 < g.Players.length := List.length_pos.mpr (List.ne_nil_of_mem hmem)
    have hlt : (g.Players.filter (fun player => player ≠ playerName)).length <
        g.Players.length := by
      rw [heq, List.length_erase_of_mem hmem]
      omega
    refine ⟨{ g with Players := g.Players.filter (fun player => player ≠ playerName) },
      ?_, heq, rfl, rfl⟩
    simp only [RemovePlayer]
    rw [if_neg (by omega)]

/-- Witness for C5: removing an absent player from a one-player game errors,
and removing a present player from a two-player game erases exactly that
entry, leaving deck and hands untouched. -/
theorem removePlayer_spec_witness :
    twoPlayerGame.Players.count "bob" ≤ 1 ∧
    RemovePlayer onePlayerGame "bob" = .error "player not found in the game" ∧
    (∃ g', RemovePlayer twoPlayerGame "bob" = .ok g' ∧
      g'.Players = twoPlayerGame.Players.erase "bob" ∧
      g'.GameDeck = twoPlayerGame.GameDeck ∧
      g'.PlayerHands = twoPlayerGame.PlayerHands) :=
  ⟨by decide,
   (removePlayer_spec onePlayerGame "bob" (by decide)).1 (by decide),
   (removePlayer_spec twoPlayerGame "bob" (by decide)).2 (by decide)⟩

/-- C9: For the game state produced by `CreateGame` and every player name,
`GetPlayerHand` fails with the player-not-found error: a freshly created
game has no hand entries for any player. -/
theorem getPlayerHand_createGame (id : Nat) (name playerName : String) :
    GetPlayerHand (CreateGame id name) playerName =
      .error "player not found or no cards dealt to this player" := rfl

/-- C8: `CreateDeck` (the `NewDeck` factory) always returns a deck of
exactly 52 cards, 13 of each suit, with no duplicate (suit, value) pair, in
the fixed enumeration order: suits Hearts, Diamonds, Clubs, Spades, and
within each suit the values Ace, 2, …, 10, Jack, Queen, King. -/
theorem newDeck_spec : NewDeck.Cards.length = 52 ∧ NewDeck.Cards.Nodup ∧
    (∀ suit ∈ deckSuits, (NewDeck.Cards.filter (fun c => c.Suit = suit)).length = 13) ∧
    NewDeck.Cards =
  [⟨"Hearts", "Ace"⟩, ⟨"Hearts", "2"⟩, ⟨"Hearts", "3"⟩, ⟨"Hearts", "4"⟩,
   ⟨"Hearts", "5"⟩, ⟨"Hearts", "6"⟩, ⟨"Hearts", "7"⟩, ⟨"Hearts", "8"⟩,
   ⟨"Hearts", "9"⟩, ⟨"Hearts", "10"⟩, ⟨"Hearts", "Jack"⟩, ⟨"Hearts", "Queen"⟩,
   ⟨"Hearts", "King"⟩, ⟨"Diamonds", "Ace"⟩, ⟨"Diamonds", "2"⟩, ⟨"Diamonds", "3"⟩,
   ⟨"Diamonds", "4"⟩, ⟨"Diamonds", "5"⟩, ⟨"Diamonds", "6"⟩, ⟨"Diamonds", "7"⟩,
   ⟨"Diamonds", "8"⟩, ⟨"Diamonds", "9"⟩, ⟨"Diamonds", "10"⟩, ⟨"Diamonds", "Jack"⟩,
   ⟨"Diamonds", "Queen"⟩, ⟨"Diamonds", "King"⟩, ⟨"Clubs", "Ace"⟩, ⟨"Clubs", "2"⟩,
   ⟨"Clubs", "3"⟩, ⟨"Clubs", "4"⟩, ⟨"Clubs", "5"⟩, ⟨"Clubs", "6"⟩,
   ⟨"Clubs", "7"⟩, ⟨"Clubs", "8"⟩, ⟨"Clubs", "9"⟩, ⟨"Clubs", "10"⟩,
   ⟨"Clubs", "Jack"⟩, ⟨"Clubs", "Queen"⟩, ⟨"Clubs", "King"⟩, ⟨"Spades", "Ace"⟩,
   ⟨"Spades", "2"⟩, ⟨"Spades", "3"⟩, ⟨"Spades", "4"⟩, ⟨"Spades", "5"⟩,
   ⟨"Spades", "6"⟩, ⟨"Spades", "7"⟩, ⟨"Spades", "8"⟩, ⟨"Spades", "9"⟩,
   ⟨"Spades", "10"⟩, ⟨"Spades", "Jack"⟩, ⟨"Spades", "Queen"⟩, ⟨"Spades", "King"⟩] := by
  decide

/-- C6: For every game, `GetPlayersWithHandValues` returns one entry per key
of the hands map (regardless of player-list membership), each entry valued
by the rank-table sum over that player's hand — the table mapping Ace to 1,
the numerals 2 through 10 to their face value, Jack to 11, Queen to 12,
King to 13, and any unrecognised value to 0 — and the returned sequence is
sorted by hand value in descending order. -/
theorem getPlayersWithHandValues_spec (g : Game) :
    (GetPlayersWithHandValues g).Perm
      (g.PlayerHands.map (fun entry =>
        { PlayerName := entry.1, HandValue := (entry.2.map getCardValue).sum })) ∧
    (GetPlayersWithHandValues g).Pairwise (fun a b => b.HandValue ≤ a.HandValue) ∧
    (∀ suit : String,
      deckValues.map (fun value => getCardValue ⟨suit, value⟩) =
        [1, 2, 3, 4, 5, 6, 7, 8, 9, 10, 11, 12, 13]) ∧
    (∀ suit value : String, value ∉ deckValues → getCardValue ⟨suit, value⟩ = 0) := by
  refine ⟨List.mergeSort_perm _ _, ?_, fun _ => rfl, ?_⟩
  · have h := @List.sorted_mergeSort PlayerHandValue
      (fun a b => decide (b.HandValue ≤ a.HandValue))
      (fun a b c hab hbc => by
        simp only [decide_eq_true_eq] at *
        omega)
      (fun a b => by
        rcases Nat.le_total b.HandValue a.HandValue with h | h
        · simp [h]
        · simp [h])
      (g.PlayerHands.map (fun entry =>
        { PlayerName := entry.1, HandValue := (entry.2.map getCardValue).sum }))
    exact h.imp (fun hab => by simpa using hab)
  · intro suit value h
    unfold getCardValue
    split <;> simp_all [deckValues]

/-- Witness for C6: on the spec's worked example the two hand values are
14 (Alice) and 12 (Bob), returned in descending order, and an unrecognised
card value contributes 0. -/
theorem getPlayersWithHandValues_spec_witness :
    (GetPlayersWithHandValues handsSampleGame).Perm
      [{ PlayerName := "Alice", HandValue := 14 }, { PlayerName := "Bob", HandValue := 12 }] ∧
    (GetPlayersWithHandValues handsSampleGame).Pairwise (fun a b => b.HandValue ≤ a.HandValue) ∧
    (("Joker" : String) ∉ deckValues ∧ getCardValue ⟨"Hearts", "Joker"⟩ = 0) :=
  ⟨(getPlayersWithHandValues_spec handsSampleGame).1,
   (getPlayersWithHandValues_spec handsSampleGame).2.1,
   by decide,
   (getPlayersWithHandValues_spec handsSampleGame).2.2.2 "Hearts" "Joker" (by decide)⟩

/-! ### Counting lemmas for the remaining-cards statistics -/

/-- The initial card-count map has exactly the four standard suits as keys. -/
theorem initCardCounts_isSome (s : String) :
    (initCardCounts s).isSome ↔ s ∈ deckSuits := by
  unfold initCardCounts
  split
  · simp only [Option.isSome_some, true_iff]
    simp only [deckSuits, List.mem_cons, List.not_mem_nil, or_false]
    tauto
  · simp only [Option.isSome_none, Bool.false_eq_true, false_iff]
    simp only [deckSuits, List.mem_cons, List.not_mem_nil, or_false]
    tauto

/-- Membership of a standard suit gives the concrete initial inner map. -/
theorem initCardCounts_eq_of_mem {s : String} (h : s ∈ deckSuits) :
    initCardCounts s = some (fun _ => 0) := by
  unfold initCardCounts
  rw [if_pos]
  simp only [deckSuits, List.mem_cons, List.not_mem_nil, or_false] at h
  tauto

/-- Running the counting loop from any map defined on every suit of the
cards succeeds, leaves absent keys absent, and adds to each present key's
inner map exactly the per-value occurrence counts of the cards. -/
theorem countCardsAux_spec :
    ∀ (cs : List Card) (m : String → Option (String → Nat)),
      (∀ c ∈ cs, (m c.Suit).isSome) →
      ∃ m', countCardsAux cs m = some m' ∧
        (∀ s, m s = none → m' s = none) ∧
        (∀ s f, m s = some f →
          ∃ fn, m' s = some fn ∧ ∀ v, fn v = f v + cs.count ⟨s, v⟩) := by
  intro cs
  induction cs with
  | nil =>
    intro m _
    exact ⟨m, rfl, fun s h => h, fun s f h => ⟨f, h, fun v => by simp⟩⟩
  | cons c rest ih =>
    obtain ⟨csuit, cvalue⟩ := c
    intro m hm
    obtain ⟨inner, hinner⟩ : ∃ inner, m csuit = some inner :=
      Option.isSome_iff_exists.mp (hm ⟨csuit, cvalue⟩ (List.mem_cons_self _ rest))
    have hm₁ : ∀ c' ∈ rest,
        ((fun suit => if suit = csuit then
            some (fun value => if value = cvalue then inner value + 1 else inner value)
          else m suit) c'.Suit).isSome := by
      intro c' hc'
      by_cases h : c'.Suit = csuit
      · simp [h]
      · simpa [h] using hm c' (List.mem_cons_of_mem _ hc')
    obtain ⟨m', hrun, hnone, hsome⟩ := ih (fun suit => if suit = csuit then
        some (fun value => if value = cvalue then inner value + 1 else inner value)
      else m suit) hm₁
    refine ⟨m', ?_, ?_, ?_⟩
    · simpa [countCardsAux, hinner] using hrun
    · intro s hs
      have hne : ¬s = csuit := by
        intro hc
        rw [hc, hinner] at hs
        exact Option.noConfusion hs
      refine hnone s ?_
      simpa [hne] using hs
    · intro s f hf
      by_cases hsc : s = csuit
      · have hfi : f = inner := by
          rw [hsc, hinner] at hf
          exact (Option.some.inj hf).symm
        subst hfi
        obtain ⟨fn, hfn, hcnt⟩ := hsome s
          (fun value => if value = cvalue then f value + 1 else f value) (by simp [hsc])
        refine ⟨fn, hfn, fun v => ?_⟩
        rw [hcnt v, List.count_cons]
        by_cases hv : v = cvalue
        · have hbeq : ((⟨csuit, cvalue⟩ : Card) == ⟨s, v⟩) = true := by
            rw [beq_iff_eq, hsc, hv]
          rw [hbeq, if_pos hv]
          simp only [if_true]
          omega
        · have hbeq : ((⟨csuit, cvalue⟩ : Card) == ⟨s, v⟩) = false := by
            simp only [beq_eq_false_iff_ne, ne_eq, Card.mk.injEq, not_and]
            intro _
            exact fun hc => hv hc.symm
          rw [hbeq, if_neg hv]
          simp only [Bool.false_eq_true, if_false]
          omega
      · obtain ⟨fn, hfn, hcnt⟩ := hsome s f (by simpa [hsc] using hf)
        refine ⟨fn, hfn, fun v => ?_⟩
        rw [hcnt v, List.count_cons]
        have hbeq : ((⟨csuit, cvalue⟩ : Card) == ⟨s, v⟩) = false := by
          simp only [beq_eq_false_iff_ne, ne_eq, Card.mk.injEq, not_and]
          intro hcc
          exact absurd hcc.symm hsc
        rw [hbeq]
        simp

/-- From any map whose keys are exactly the four standard suits, the
counting loop hits the `nil` inner map — and the Go code panics — as soon
as the deck holds a card of any other suit. -/
theorem countCardsAux_none :
    ∀ (cs : List Card) (m : String → Option (String → Nat)),
      (∀ s, (m s).isSome ↔ s ∈ deckSuits) →
      (∃ c ∈ cs, c.Suit ∉ deckSuits) → countCardsAux cs m = none := by
  intro cs
  induction cs with
  | nil =>
    intro m _ hbad
    obtain ⟨c, hc, _⟩ := hbad
    exact absurd hc (List.not_mem_nil c)
  | cons c rest ih =>
    obtain ⟨csuit, cvalue⟩ := c
    intro m hdom hbad
    by_cases hcs : csuit ∈ deckSuits
    · obtain ⟨inner, hinner⟩ : ∃ inner, m csuit = some inner :=
        Option.isSome_iff_exists.mp ((hdom csuit).mpr hcs)
      have hbad' : ∃ c' ∈ rest, c'.Suit ∉ deckSuits := by
        obtain ⟨c', hc', hsuit⟩ := hbad
        rcases List.mem_cons.mp hc' with hhead | htail
        · exact absurd hcs (by rw [hhead] at hsuit; exact hsuit)
        · exact ⟨c', htail, hsuit⟩
      have hdom' : ∀ s, ((fun suit => if suit = csuit then
          some (fun value => if value = cvalue then inner value + 1 else inner value)
        else m suit) s).isSome ↔ s ∈ deckSuits := by
        intro s
        by_cases hs : s = csuit
        · simpa [hs] using hcs
        · simpa [hs] using hdom s
      have := ih (fun suit => if suit = csuit then
          some (fun value => if value = cvalue then inner value + 1 else inner value)
        else m suit) hdom' hbad'
      simpa [countCardsAux, hinner] using this
    · have hnone : m csuit = none := by
        have := (hdom csuit).not
        rw [Option.not_isSome_iff_eq_none] at this
        exact this.mpr hcs
      simp [countCardsAux, hnone]

/-- C10: The per-card counting in `GetRemainingCardsSorted` is total exactly
on draw piles whose cards all carry one of the four standard suits: a game
whose draw pile contains a card with any other suit string makes the
counting step write into a `nil` inner map and panic (modelled as `none`)
instead of returning a result, while all-standard draw piles always produce
a result. -/
theorem getRemainingCardsSorted_total_iff (g : Game) :
    ((∃ c ∈ g.GameDeck, c.Suit ∉ deckSuits) → GetRemainingCardsSorted g = none) ∧
    ((∀ c ∈ g.GameDeck, c.Suit ∈ deckSuits) → ∃ out, GetRemainingCardsSorted g = some out) := by
  constructor
  · intro hbad
    have h := countCardsAux_none g.GameDeck initCardCounts initCardCounts_isSome hbad
    simp [GetRemainingCardsSorted, h]
  · intro hstd
    have hm : ∀ c ∈ g.GameDeck, (initCardCounts c.Suit).isSome := by
      intro c hc
      exact (initCardCounts_isSome c.Suit).mpr (hstd c hc)
    obtain ⟨m', hrun, -, -⟩ := countCardsAux_spec g.GameDeck initCardCounts hm
    unfold GetRemainingCardsSorted
    rw [hrun]
    exact ⟨_, rfl⟩

/-- Witness for C10: a draw pile holding a Joker-suited card panics, while
the standard two-card sample game returns a result. -/
theorem getRemainingCardsSorted_total_iff_witness :
    (∃ c ∈ jokerGame.GameDeck, c.Suit ∉ deckSuits) ∧
    GetRemainingCardsSorted jokerGame = none ∧
    (∀ c ∈ dealSampleGame.GameDeck, c.Suit ∈ deckSuits) ∧
    (∃ out, GetRemainingCardsSorted dealSampleGame = some out) :=
  ⟨by decide,
   (getRemainingCardsSorted_total_iff jokerGame).1 (by decide),
   by decide,
   (getRemainingCardsSorted_total_iff dealSampleGame).2 (by decide)⟩

/-- The suit set of the counting map equals the suit set of the output
order (the sequences differ, the elements agree). -/
theorem mem_suitsOrder_iff (s : String) : s ∈ deckSuits ↔ s ∈ suitsOrder := by
  simp only [deckSuits, suitsOrder, List.mem_cons, List.not_mem_nil, or_false]
  tauto

/-- The value set of the deck enumeration equals the value set of the
output order (the sequences differ, the elements agree). -/
theorem mem_valuesOrder_iff (v : String) : v ∈ deckValues ↔ v ∈ valuesOrder := by
  simp only [deckValues, valuesOrder, List.mem_cons, List.not_mem_nil, or_false]
  tauto

/-- On an all-standard draw pile, `GetRemainingCardsSorted` returns the walk
of `suitsOrder` × `valuesOrder` keeping each pair with its positive
occurrence count in the draw pile. -/
theorem getRemainingCardsSorted_eq_counts (g : Game)
    (hstd : ∀ c ∈ g.GameDeck, c.Suit ∈ deckSuits) :
    GetRemainingCardsSorted g = some (suitsOrder.flatMap (fun suit =>
      valuesOrder.filterMap (fun value =>
        if 0 < g.GameDeck.count ⟨suit, value⟩ then
          some { Suit := suit, Value := value, Count := g.GameDeck.count ⟨suit, value⟩ }
        else none))) := by
  have hm : ∀ c ∈ g.GameDeck, (initCardCounts c.Suit).isSome := fun c hc =>
    (initCardCounts_isSome c.Suit).mpr (hstd c hc)
  obtain ⟨m', hrun, hnone, hsome⟩ := countCardsAux_spec g.GameDeck initCardCounts hm
  unfold GetRemainingCardsSorted
  rw [hrun]
  simp only [Option.map_some', Option.some.injEq, gt_iff_lt]
  unfold List.flatMap
  apply congrArg List.flatten
  apply List.map_congr_left
  intro suit hsuit
  have hsmem : suit ∈ deckSuits := (mem_suitsOrder_iff suit).mpr hsuit
  obtain ⟨fn, hfn, hv⟩ := hsome suit (fun _ => 0) (initCardCounts_eq_of_mem hsmem)
  simp only [hfn]
  congr 1
  funext value
  have hfv : fn value = g.GameDeck.count ⟨suit, value⟩ := by simpa using hv value
  rw [hfv]

/-- C7: For every game over the spec's card domain (each draw-pile card
carrying one of the four standard suits and thirteen standard values),
`GetRemainingCardsSorted` returns exactly the (suit, value) pairs whose
count in the draw pile is positive, each with its count, ordered first by
suit in the fixed sequence Hearts, Spades, Clubs, Diamonds and then within
each suit by value in the descending rank order King, Queen, Jack, 10, …,
2, Ace (strictly increasing `cardKey`). -/
theorem getRemainingCardsSorted_spec (g : Game)
    (hstd : ∀ c ∈ g.GameDeck, c.Suit ∈ deckSuits ∧ c.Value ∈ deckValues) :
    ∃ out, GetRemainingCardsSorted g = some out ∧
      (∀ s v n, ({ Suit := s, Value := v, Count := n } : CardCount) ∈ out ↔
        (n = g.GameDeck.count ⟨s, v⟩ ∧ 0 < n)) ∧
      out.Pairwise (fun a b => cardKey a < cardKey b) := by
  have hout := getRemainingCardsSorted_eq_counts g (fun c hc => (hstd c hc).1)
  refine ⟨_, hout, ?_, ?_⟩
  · intro s v n
    constructor
    · intro hmem
      simp only [List.mem_flatMap, List.mem_filterMap] at hmem
      obtain ⟨suit, hsuit, value, hvalue, hif⟩ := hmem
      by_cases hpos : 0 < g.GameDeck.count ⟨suit, value⟩
      · rw [if_pos hpos] at hif
        obtain ⟨hs, hv, hn⟩ := CardCount.mk.injEq _ _ _ _ _ _ ▸ (Option.some.inj hif)
        subst hs
        subst hv
        subst hn
        exact ⟨rfl, hpos⟩
      · rw [if_neg hpos] at hif
        exact Option.noConfusion hif
    · rintro ⟨hn, hpos⟩
      have hmemdeck : (⟨s, v⟩ : Card) ∈ g.GameDeck := by
        rw [hn] at hpos
        exact List.count_pos_iff.mp hpos
      have hsv := hstd ⟨s, v⟩ hmemdeck
      simp only [List.mem_flatMap, List.mem_filterMap]
      refine ⟨s, (mem_suitsOrder_iff s).mp hsv.1, v, (mem_valuesOrder_iff v).mp hsv.2, ?_⟩
      rw [if_pos (hn ▸ hpos), hn]
  · rw [List.pairwise_flatMap]
    constructor
    · intro suit _
      have base : valuesOrder.Pairwise
          (fun v w => valuesOrder.indexOf v < valuesOrder.indexOf w) := by decide
      refine List.Pairwise.filterMap _ ?_ base
      intro v w hvw x hx y hy
      by_cases hv : 0 < g.GameDeck.count ⟨suit, v⟩
      · rw [if_pos hv] at hx
        by_cases hw : 0 < g.GameDeck.count ⟨suit, w⟩
        · rw [if_pos hw] at hy
          obtain rfl := Option.mem_some_iff.mp hx
          obtain rfl := Option.mem_some_iff.mp hy
          simp only [cardKey]
          omega
        · rw [if_neg hw] at hy
          exact absurd hy (Option.not_mem_none y)
      · rw [if_neg hv] at hx
        exact absurd hx (Option.not_mem_none x)
    · have base : suitsOrder.Pairwise
          (fun s t => suitsOrder.indexOf s < suitsOrder.indexOf t) := by decide
      refine base.imp ?_
      intro s t hst x hx y hy
      simp only [List.mem_filterMap] at hx hy
      obtain ⟨v, hvmem, hvx⟩ := hx
      obtain ⟨w, hwmem, hwy⟩ := hy
      have hvlt : valuesOrder.indexOf v < 13 :=
        List.indexOf_lt_length.mpr hvmem
      by_cases hcv : 0 < g.GameDeck.count ⟨s, v⟩
      · rw [if_pos hcv] at hvx
        by_cases hcw : 0 < g.GameDeck.count ⟨t, w⟩
        · rw [if_pos hcw] at hwy
          obtain rfl := Option.some.inj hvx
          obtain rfl := Option.some.inj hwy
          simp only [cardKey]
          omega
        · rw [if_neg hcw] at hwy
          exact Option.noConfusion hwy
      · rw [if_neg hcv] at hvx
        exact Option.noConfusion hvx

/-- Witness for C7: the spec's worked example — a draw pile of Hearts-King,
Hearts-Ace, Clubs-2 is all-standard and is reported as exactly those three
(suit, value) pairs with count 1, in that order. -/
theorem getRemainingCardsSorted_spec_witness :
    (∀ c ∈ remainingSampleGame.GameDeck, c.Suit ∈ deckSuits ∧ c.Value ∈ deckValues) ∧
    (∃ out, GetRemainingCardsSorted remainingSampleGame = some out ∧
      (∀ s v n, ({ Suit := s, Value := v, Count := n } : CardCount) ∈ out ↔
        (n = remainingSampleGame.GameDeck.count ⟨s, v⟩ ∧ 0 < n)) ∧
      out.Pairwise (fun a b => cardKey a < cardKey b)) ∧
    GetRemainingCardsSorted remainingSampleGame =
      some [{ Suit := "Hearts", Value := "King", Count := 1 },
            { Suit := "Hearts", Value := "Ace", Count := 1 },
            { Suit := "Clubs", Value := "2", Count := 1 }] :=
  ⟨by decide, getRemainingCardsSorted_spec remainingSampleGame (by decide), by decide⟩

end CardGame
